import Mathlib

/-!
# Verification of the core-js-101 exercise library

Shallow embedding, in Lean 4, of the two source files of the repository:

* `src/06-objects-tasks.js` — JSON helpers (`getJSON`, `fromJSON`) and the
  CSS-selector builder (`Selector`, `Combiner`, `cssSelectorBuilder`);
* the promise-tasks file — `willYouMarryMe`, `processAllPromises`,
  `getFastestPromise`, `chainPromises`.

JavaScript mutation is modelled by explicit state passing: a `Selector`
instance becomes a `SelectorState` value, a method that mutates the instance
becomes a function from state to state, and a `throw` becomes an `Except`
error carrying the thrown `Error`'s message string.  Settled promises are
modelled by `Except` values (fulfilled / rejected with a value).
-/

/-! ## The selector builder (`src/06-objects-tasks.js`, `function Selector`) -/

/-- One selector fragment, as produced by `getSelectorObject(selectorName,
symbols, weight)` in the source: the literal text, the delimiter symbols
(`symbols[0]` the leading one, `symbols[1]` the trailing one, both optional),
and the numeric rank (`weight`). -/
structure SelectorObject where
  selectorName : String
  symbols : List String
  weight : Nat
  deriving Repr, DecidableEq

/-- The mutable state captured by one `Selector` instance: the `selectors`
array and the `currentSelectorWeight` cursor (initially `[]` and `0`). -/
structure SelectorState where
  selectors : List SelectorObject
  currentSelectorWeight : Nat
  deriving Repr, DecidableEq

namespace Selector

/-- `getSelectorObject` from the source. -/
def getSelectorObject (selectorName : String) (symbols : List String)
    (weight : Nat) : SelectorObject :=
  { selectorName := selectorName, symbols := symbols, weight := weight }

/-- A fresh `new Selector()`: empty `selectors`, cursor `0`. -/
def emptySelector : SelectorState :=
  { selectors := [], currentSelectorWeight := 0 }

/-- `unchainableSelecors` from the source (the spelling is the source's). -/
def unchainableSelecors : List Nat := [0, 1, 5]

/-- `isUnchainableInChain`: the fragment's weight occurs in
`unchainableSelecors` (`findIndex ... !== -1`) and some already-stored
fragment has that same weight. -/
def isUnchainableInChain (st : SelectorState) (sel : SelectorObject) : Bool :=
  unchainableSelecors.any (fun selectorWeight => selectorWeight == sel.weight)
    && st.selectors.any (fun s => s.weight == sel.weight)

/-- Message of the duplicate-singleton error thrown by `checkSequence`. -/
def dupMsg : String :=
  "Element, id and pseudo-element should not occur more then one time inside the selector"

/-- Message of the out-of-order error thrown by `checkSequence`. -/
def ordMsg : String :=
  "Selector parts should be arranged in the following order: element, id, class, attribute, pseudo-class, pseudo-element"

/-- `checkSequence` from the source.  The result pairs the outcome (`.ok` or
the thrown message) with the state of the instance after the call: the
source throws before the `currentSelectorWeight = selector.weight`
assignment, so on an error the state is returned unchanged, and on success
only the cursor is updated. -/
def checkSequence (st : SelectorState) (sel : SelectorObject) :
    Except String Unit × SelectorState :=
  if isUnchainableInChain st sel then (.error dupMsg, st)
  else if sel.weight < st.currentSelectorWeight then (.error ordMsg, st)
  else (.ok (), { st with currentSelectorWeight := sel.weight })

/-- `handleSelector` from the source: run `checkSequence` (a throw
propagates, leaving the state as `checkSequence` left it), then push the
fragment onto `selectors`. -/
def handleSelector (st : SelectorState) (sel : SelectorObject) :
    Except String Unit × SelectorState :=
  match checkSequence st sel with
  | (.ok _, st1) => (.ok (), { st1 with selectors := st1.selectors ++ [sel] })
  | (.error e, st1) => (.error e, st1)

/-- `getSelectorString` from the source: `symbols[0] || ''` before the name,
`symbols[1] || ''` after it (a missing entry renders as the empty string). -/
def getSelectorString (sel : SelectorObject) : String :=
  sel.symbols.getD 0 "" ++ sel.selectorName ++ sel.symbols.getD 1 ""

/-- `this.stringify` from the source: reduce over the stored fragments,
appending each fragment's rendering to the accumulator, starting from `''`. -/
def stringify (st : SelectorState) : String :=
  st.selectors.foldl (fun acc sel => acc ++ getSelectorString sel) ""

/-- The six fragment kinds exposed by the builder facade. -/
inductive SelectorKind where
  | element
  | id
  | «class»
  | attr
  | pseudoClass
  | pseudoElement
  deriving Repr, DecidableEq

/-- One fragment-appending call: a kind together with the string argument. -/
abbrev SelectorCall := SelectorKind × String

/-- The fragment each of the six methods builds, exactly as in the source:
`element` → `getSelectorObject(tagName, [], 0)`, `id` → `['#'], 1`,
`class` → `['.'], 2`, `attr` → `['[', ']'], 3`, `pseudoClass` → `[':'], 4`,
`pseudoElement` → `['::'], 5`. -/
def fragmentOf : SelectorCall → SelectorObject
  | (.element, n) => getSelectorObject n [] 0
  | (.id, n) => getSelectorObject n ["#"] 1
  | (.«class», n) => getSelectorObject n ["."] 2
  | (.attr, n) => getSelectorObject n ["[", "]"] 3
  | (.pseudoClass, n) => getSelectorObject n [":"] 4
  | (.pseudoElement, n) => getSelectorObject n ["::"] 5

/-- Running a chain of fragment-appending calls on a selector instance, in
order; a thrown error aborts the chain and reports the state at the throw
(each of the six methods is `handleSelector(getSelectorObject(...))`
followed by `return this`). -/
def buildChain : SelectorState → List SelectorCall → Except String Unit × SelectorState
  | st, [] => (.ok (), st)
  | st, c :: rest =>
    match handleSelector st (fragmentOf c) with
    | (.ok _, st1) => buildChain st1 rest
    | (.error e, st1) => (.error e, st1)

end Selector

/-- A renderable selector object: either a `Selector` chain or a `Combiner`
(the source's `function Combiner(selector1, combinator, selector2)`), whose
operands may themselves be combiners. -/
inductive CssNode where
  | chain (st : SelectorState)
  | combiner (lh : CssNode) (combinator : String) (rh : CssNode)
  deriving Repr, DecidableEq

/-- `stringify` on a renderable object: a chain renders as above; a combiner
renders as the template literal of the source, the left operand's rendering,
a space, the combinator symbol, a space, the right operand's rendering. -/
def CssNode.stringify : CssNode → String
  | .chain st => Selector.stringify st
  | .combiner lh combinator rh =>
      lh.stringify ++ " " ++ combinator ++ " " ++ rh.stringify

namespace Selector

/-- The rendering of one fragment as the specification states it: the
fragment's name wrapped in the delimiter pair of its kind — element none,
id `#`, class `.`, attr `[` and `]`, pseudo-class `:`, pseudo-element `::`. -/
def specRender : SelectorCall → String
  | (.element, n) => n
  | (.id, n) => "#" ++ n
  | (.«class», n) => "." ++ n
  | (.attr, n) => "[" ++ n ++ "]"
  | (.pseudoClass, n) => ":" ++ n
  | (.pseudoElement, n) => "::" ++ n

theorem append_empty_str (s : String) : s ++ "" = s := by
  cases s with
  | mk d => show String.mk (d ++ []) = String.mk d; rw [List.append_nil]

theorem empty_append_str (s : String) : "" ++ s = s := by
  cases s with
  | mk d => show String.mk ([] ++ d) = String.mk d; rw [List.nil_append]

theorem getSelectorString_fragmentOf (c : SelectorCall) :
    getSelectorString (fragmentOf c) = specRender c := by
  obtain ⟨k, n⟩ := c
  cases k <;>
    simp only [fragmentOf, getSelectorObject, getSelectorString, specRender,
      List.getD_cons_zero, List.getD_cons_succ, List.getD_nil] <;>
    first
      | rfl
      | (rw [append_empty_str, empty_append_str])
      | (rw [append_empty_str])

theorem checkSequence_selectors (st : SelectorState) (sel : SelectorObject) :
    ((checkSequence st sel).2).selectors = st.selectors := by
  unfold checkSequence
  split <;> [rfl; split <;> rfl]

theorem handleSelector_ok_selectors (st : SelectorState) (sel : SelectorObject)
    (h : (handleSelector st sel).1 = .ok ()) :
    ((handleSelector st sel).2).selectors = st.selectors ++ [sel] := by
  unfold handleSelector at *
  cases hc : checkSequence st sel with
  | mk r st1 =>
    cases r with
    | ok u =>
        have : st1.selectors = st.selectors := by
          have := checkSequence_selectors st sel
          rw [hc] at this; exact this
        simp [hc, this]
    | error e => simp [hc] at h

theorem buildChain_ok_selectors (calls : List SelectorCall) :
    ∀ st : SelectorState, (buildChain st calls).1 = .ok () →
      ((buildChain st calls).2).selectors
        = st.selectors ++ calls.map fragmentOf := by
  induction calls with
  | nil => intro st _; simp [buildChain]
  | cons c rest ih =>
    intro st h
    rw [buildChain] at h ⊢
    cases hh : handleSelector st (fragmentOf c) with
    | mk r st1 =>
      cases r with
      | ok u =>
          cases u
          rw [hh] at h
          have h1 : st1.selectors = st.selectors ++ [fragmentOf c] := by
            have := handleSelector_ok_selectors st (fragmentOf c)
              (by rw [hh])
            rw [hh] at this; exact this
          have := ih st1 h
          simp only [this, h1, List.map, List.append_assoc, List.cons_append,
            List.nil_append]
      | error e => rw [hh] at h; simp at h

theorem stringify_eq_join (st : SelectorState) :
    stringify st = String.join (st.selectors.map getSelectorString) := by
  unfold stringify String.join
  rw [List.foldl_map]

end Selector

/-- The three-call chain of the specification's example:
`element('a').attr('href$=".png"').pseudoClass('focus')`. -/
def exampleCalls : List Selector.SelectorCall :=
  [(.element, "a"), (.attr, "href$=\".png\""), (.pseudoClass, "focus")]

/-- **C1.** A selector chain built by a valid (non-throwing) sequence of
fragment-appending calls stringifies to the concatenation, in append order
with no separator, of each fragment's leading delimiter + name + trailing
delimiter, with the delimiter pairs the specification lists: element none,
id `#`, class `.`, attr `[` and `]`, pseudo-class `:`, pseudo-element `::`. -/
theorem selector_stringify_concat (calls : List Selector.SelectorCall)
    (h : (Selector.buildChain Selector.emptySelector calls).1 = .ok ()) :
    Selector.stringify (Selector.buildChain Selector.emptySelector calls).2
      = String.join (calls.map Selector.specRender) := by
  rw [Selector.stringify_eq_join,
    Selector.buildChain_ok_selectors calls Selector.emptySelector h]
  show String.join ((List.map _ (calls.map Selector.fragmentOf)))
      = String.join (calls.map Selector.specRender)
  rw [List.map_map]
  congr 1
  exact List.map_congr_left (fun c _ => Selector.getSelectorString_fragmentOf c)

/-- **C1 witness.** `element('a').attr('href$=".png"').pseudoClass('focus')`
builds without error and stringifies to `a[href$=".png"]:focus`. -/
theorem selector_stringify_concat_witness :
    (Selector.buildChain Selector.emptySelector exampleCalls).1 = .ok () ∧
      Selector.stringify (Selector.buildChain Selector.emptySelector exampleCalls).2
        = "a[href$=\".png\"]:focus" := by
  refine ⟨rfl, ?_⟩
  rw [selector_stringify_concat exampleCalls rfl]
  rfl

theorem checkSequence_error_state (st : SelectorState) (sel : SelectorObject)
    (e : String) (s2 : SelectorState)
    (h : Selector.checkSequence st sel = (.error e, s2)) : s2 = st := by
  unfold Selector.checkSequence at h
  split at h
  · injection h with h1 h2; exact h2.symm
  · split at h
    · injection h with h1 h2; exact h2.symm
    · injection h with h1 h2; exact Except.noConfusion h1

theorem checkSequence_ok_state (st : SelectorState) (sel : SelectorObject)
    (u : Unit) (s2 : SelectorState)
    (h : Selector.checkSequence st sel = (.ok u, s2)) :
    s2 = { st with currentSelectorWeight := sel.weight } := by
  unfold Selector.checkSequence at h
  split at h
  · injection h with h1 h2; exact Except.noConfusion h1
  · split at h
    · injection h with h1 h2; exact Except.noConfusion h1
    · injection h with h1 h2; exact h2.symm

theorem handleSelector_of_checkSequence_ok (st : SelectorState)
    (sel : SelectorObject) (u : Unit) (s2 : SelectorState)
    (h : Selector.checkSequence st sel = (.ok u, s2)) :
    Selector.handleSelector st sel
      = (.ok (), { s2 with selectors := s2.selectors ++ [sel] }) := by
  unfold Selector.handleSelector
  rw [h]

theorem handleSelector_of_checkSequence_error (st : SelectorState)
    (sel : SelectorObject) (e : String) (s2 : SelectorState)
    (h : Selector.checkSequence st sel = (.error e, s2)) :
    Selector.handleSelector st sel = (.error e, s2) := by
  unfold Selector.handleSelector
  rw [h]

/-- **C2.** Appending a fragment of a singleton rank (0 = element, 1 = id,
5 = pseudo-element) to a chain that already holds a fragment of that exact
rank throws the duplicate-singleton error, whatever else the chain holds and
however the new fragment relates to the cursor: the duplicate check runs
before the ordering check, so the duplicate message wins even when the
append is also out of order. -/
theorem duplicate_singleton_error (st : SelectorState) (sel : SelectorObject)
    (hw : sel.weight = 0 ∨ sel.weight = 1 ∨ sel.weight = 5)
    (hdup : ∃ g ∈ st.selectors, g.weight = sel.weight) :
    (Selector.handleSelector st sel).1 = .error Selector.dupMsg := by
  have hunch : Selector.isUnchainableInChain st sel = true := by
    unfold Selector.isUnchainableInChain Selector.unchainableSelecors
    rw [Bool.and_eq_true]
    constructor
    · rcases hw with h | h | h <;> simp [h]
    · obtain ⟨g, hg, hgw⟩ := hdup
      exact List.any_eq_true.mpr ⟨g, hg, by simp [hgw]⟩
  have hc : Selector.checkSequence st sel = (.error Selector.dupMsg, st) := by
    unfold Selector.checkSequence
    rw [if_pos hunch]
  rw [handleSelector_of_checkSequence_error st sel Selector.dupMsg st hc]

/-- The chain `element('a').class('x')` of the C2/C3 examples: holds an
element fragment and a class fragment, cursor at rank 2. -/
def dupExampleState : SelectorState :=
  (Selector.buildChain Selector.emptySelector
    [(.element, "a"), (.«class», "x")]).2

/-- **C2 witness.** On `element('a').class('x')`, appending `element('b')`
(rank 0, already present, and below the cursor) throws the
duplicate-singleton error. -/
theorem duplicate_singleton_error_witness :
    ((Selector.getSelectorObject "b" [] 0).weight = 0 ∨
        (Selector.getSelectorObject "b" [] 0).weight = 1 ∨
        (Selector.getSelectorObject "b" [] 0).weight = 5) ∧
      (∃ g ∈ dupExampleState.selectors,
        g.weight = (Selector.getSelectorObject "b" [] 0).weight) ∧
      (Selector.handleSelector dupExampleState
          (Selector.getSelectorObject "b" [] 0)).1 = .error Selector.dupMsg :=
  ⟨Or.inl rfl, by decide,
    duplicate_singleton_error dupExampleState
      (Selector.getSelectorObject "b" [] 0) (Or.inl rfl) (by decide)⟩

/-- **C3 counterexample.** The claim predicts that appending a fragment of
rank strictly below the cursor always throws the ordering error.  On
`element('a').class('x')` (cursor 2), appending `element('b')` (rank 0 < 2)
instead throws the duplicate-singleton error — the duplicate check runs
first — and the two messages differ, so the thrown error is not the
ordering error. -/
theorem ordering_claim_counterexample :
    (Selector.getSelectorObject "b" [] 0).weight
        < dupExampleState.currentSelectorWeight ∧
      (Selector.handleSelector dupExampleState
          (Selector.getSelectorObject "b" [] 0)).1 = .error Selector.dupMsg ∧
      Selector.dupMsg ≠ Selector.ordMsg :=
  ⟨by decide, rfl, by decide⟩

/-- **C3 (amended).** Provided the fragment does not trip the
duplicate-singleton check (which runs first and takes precedence), appending
a fragment of rank strictly below the cursor throws the ordering error;
appending a fragment whose rank equals the cursor never produces the
ordering error; and every successful append sets the cursor to the appended
fragment's rank. -/
theorem ordering_check_amended (st : SelectorState) (sel : SelectorObject) :
    (Selector.isUnchainableInChain st sel = false →
        sel.weight < st.currentSelectorWeight →
        (Selector.handleSelector st sel).1 = .error Selector.ordMsg) ∧
      (sel.weight = st.currentSelectorWeight →
        (Selector.handleSelector st sel).1 ≠ .error Selector.ordMsg) ∧
      (∀ st1, Selector.handleSelector st sel = (.ok (), st1) →
        st1.currentSelectorWeight = sel.weight) := by
  refine ⟨?_, ?_, ?_⟩
  · intro hnd hlt
    have hc : Selector.checkSequence st sel = (.error Selector.ordMsg, st) := by
      unfold Selector.checkSequence
      rw [if_neg (by rw [hnd]; exact Bool.false_ne_true), if_pos hlt]
    rw [handleSelector_of_checkSequence_error st sel Selector.ordMsg st hc]
  · intro heq
    cases hc : Selector.checkSequence st sel with
    | mk r s2 =>
      cases r with
      | ok u =>
        rw [handleSelector_of_checkSequence_ok st sel u s2 hc]
        intro hcontra
        exact Except.noConfusion hcontra
      | error e2 =>
        have he2 : e2 = Selector.dupMsg := by
          unfold Selector.checkSequence at hc
          split at hc
          · injection hc with h1 h2; injection h1 with h1; exact h1.symm
          · split at hc
            · rename_i hlt
              rw [heq] at hlt
              exact absurd hlt (lt_irrefl _)
            · injection hc with h1 h2; exact Except.noConfusion h1
        rw [handleSelector_of_checkSequence_error st sel e2 s2 hc, he2]
        intro hcontra
        injection hcontra with hmsg
        exact absurd hmsg (by decide)
  · intro st1 h
    cases hc : Selector.checkSequence st sel with
    | mk r s2 =>
      cases r with
      | ok u =>
        rw [handleSelector_of_checkSequence_ok st sel u s2 hc] at h
        injection h with h1 h2
        rw [← h2]
        show s2.currentSelectorWeight = sel.weight
        rw [checkSequence_ok_state st sel u s2 hc]
      | error e2 =>
        rw [handleSelector_of_checkSequence_error st sel e2 s2 hc] at h
        injection h with h1 h2
        exact Except.noConfusion h1

/-- **C3 amended witness.** On `element('a').class('x')` (cursor 2):
appending `id('y')` (rank 1 < 2, not a duplicate) throws the ordering
error; appending `class('y')` (rank 2 = cursor) does not produce the
ordering error; and successfully appending `attr('z')` (rank 3) moves the
cursor to 3. -/
theorem ordering_check_amended_witness :
    (Selector.handleSelector dupExampleState
        (Selector.getSelectorObject "y" ["#"] 1)).1 = .error Selector.ordMsg ∧
      (Selector.handleSelector dupExampleState
          (Selector.getSelectorObject "y" ["."] 2)).1 ≠ .error Selector.ordMsg ∧
      ((Selector.handleSelector dupExampleState
          (Selector.getSelectorObject "z" ["[", "]"] 3)).2).currentSelectorWeight
        = 3 := by
  refine ⟨(ordering_check_amended dupExampleState
      (Selector.getSelectorObject "y" ["#"] 1)).1 (by decide) (by decide),
    (ordering_check_amended dupExampleState
      (Selector.getSelectorObject "y" ["."] 2)).2.1 (by decide),
    ?_⟩
  exact (ordering_check_amended dupExampleState
      (Selector.getSelectorObject "z" ["[", "]"] 3)).2.2
    ((Selector.handleSelector dupExampleState
        (Selector.getSelectorObject "z" ["[", "]"] 3)).2) rfl

/-- **C4.** A combiner node stringifies to the left operand's rendering, one
literal space, the combinator symbol, one literal space, and the right
operand's rendering — for every combinator symbol; with the single-space
descendant combinator the rendering therefore contains a double space. -/
theorem combiner_stringify_spaces :
    (∀ (a b : CssNode) (sym : String),
        (CssNode.combiner a sym b).stringify
          = a.stringify ++ " " ++ sym ++ " " ++ b.stringify) ∧
      (∀ a b : CssNode, ∃ s t : List Char,
        ((CssNode.combiner a " " b).stringify).data = s ++ ' ' :: ' ' :: t) := by
  refine ⟨fun a b sym => rfl, fun a b => ?_⟩
  refine ⟨a.stringify.data, ' ' :: b.stringify.data, ?_⟩
  show (a.stringify ++ " " ++ " " ++ " " ++ b.stringify).data = _
  cases ha : a.stringify with
  | mk da =>
    cases hb : b.stringify with
    | mk db =>
      show da ++ [' '] ++ [' '] ++ [' '] ++ db = _
      simp

/-- **C5.** A fragment-appending call that throws (either validation error)
leaves the chain untouched: the state after the failed call — its
`selectors` list and its `currentSelectorWeight` cursor — is exactly the
state before it, so later calls behave as if the failed call never
happened. -/
theorem failed_append_preserves_state (st : SelectorState)
    (sel : SelectorObject) (e : String) (st1 : SelectorState)
    (h : Selector.handleSelector st sel = (.error e, st1)) : st1 = st := by
  cases hc : Selector.checkSequence st sel with
  | mk r s2 =>
    cases r with
    | ok u =>
      rw [handleSelector_of_checkSequence_ok st sel u s2 hc] at h
      injection h with h1 h2
      exact Except.noConfusion h1
    | error e2 =>
      rw [handleSelector_of_checkSequence_error st sel e2 s2 hc] at h
      injection h with h1 h2
      rw [← h2]
      exact checkSequence_error_state st sel e2 s2 hc

/-- **C5 witness.** The failed duplicate append `element('b')` on
`element('a').class('x')` leaves the state exactly `element('a').class('x')`'s
state. -/
theorem failed_append_preserves_state_witness :
    (Selector.handleSelector dupExampleState
        (Selector.getSelectorObject "b" [] 0)).2 = dupExampleState :=
  failed_append_preserves_state dupExampleState
    (Selector.getSelectorObject "b" [] 0) Selector.dupMsg
    (Selector.handleSelector dupExampleState
      (Selector.getSelectorObject "b" [] 0)).2 rfl

/-! ## The promise tasks (the repository's promise-tasks source file)

Settled outcomes of promises are modelled by `Except String Int` (fulfilled
with an integer / rejected with an error message); plain values handled by
these exercises are modelled as integers.  JavaScript `null` in an
accumulator position is modelled by `Option`, and JavaScript truthiness of
an integer accumulator is the test against `0` (`null` and `0` are falsy,
every other integer truthy). -/

/-- `willYouMarryMe` from the source, with the parameter at its documented
domain: a boolean or absent (`none` models calling with no argument, i.e.
`isPositiveAnswer === undefined`).  The source resolves by truthiness when
the argument is not `undefined` and rejects otherwise. -/
def willYouMarryMe (isPositiveAnswer : Option Bool) : Except String String :=
  match isPositiveAnswer with
  | some b =>
      .ok (if b then "Hooray!!! She said \"Yes\"!" else "Oh no, she said \"No\".")
  | none => .error "Wrong parameter is passed! Ask her again."

/-- **C6.** `willYouMarryMe` resolves with the fixed yes-message on `true`,
the fixed no-message on `false`, and rejects with the fixed error message
when the input is neither true nor false — in the ternary input domain, when
no argument is passed. -/
theorem willYouMarryMe_cases :
    willYouMarryMe (some true) = .ok "Hooray!!! She said \"Yes\"!" ∧
      willYouMarryMe (some false) = .ok "Oh no, she said \"No\"." ∧
      willYouMarryMe none = .error "Wrong parameter is passed! Ask her again." ∧
      ∀ x : Option Bool, x ≠ some true → x ≠ some false →
        willYouMarryMe x = .error "Wrong parameter is passed! Ask her again." := by
  refine ⟨rfl, rfl, rfl, ?_⟩
  intro x hx1 hx2
  match x with
  | none => rfl
  | some true => exact absurd rfl hx1
  | some false => exact absurd rfl hx2

/-- **C6 witness.** The absent case rejects with the fixed message. -/
theorem willYouMarryMe_cases_witness :
    willYouMarryMe none = .error "Wrong parameter is passed! Ask her again." :=
  willYouMarryMe_cases.2.2.2 none (by decide) (by decide)

/-- `processAllPromises` from the source, with each input promise modelled
by its status at the synchronous settlement horizon of the call: `some v`
an input already fulfilled with `v` (its `then` callback, queued during the
`forEach`, pushes onto `acc` before any observer of the returned promise
runs), `none` an input not yet settled, which contributes nothing to the
observed value.  The source pushes fulfilled values onto `acc` in input
order and calls `resolve(acc)` synchronously, without waiting for the
inputs to settle. -/
def processAllPromises (array : List (Option Int)) : List Int :=
  array.foldl
    (fun acc promise =>
      match promise with
      | some value => acc ++ [value]
      | none => acc)
    []

theorem processAllPromises_go (array : List (Option Int)) :
    ∀ acc : List Int,
      array.foldl
          (fun acc promise =>
            match promise with
            | some value => acc ++ [value]
            | none => acc)
          acc
        = acc ++ array.filterMap id := by
  induction array with
  | nil => intro acc; simp
  | cons p rest ih =>
    intro acc
    cases p with
    | some v => simp [ih, List.filterMap_cons]
    | none => simp [ih, List.filterMap_cons]

/-- **C8.** `processAllPromises` resolves with the values, in input order, of
exactly those inputs that have settled by the time it resolves: with every
input settled it is the full list of resolved values, and with an
unsettled input present it still resolves — immediately, carrying only what
has resolved so far (`[some 1, none]` resolves to `[1]`) — rather than
waiting for every input. -/
theorem processAllPromises_partial_collect :
    (∀ array : List (Option Int),
        processAllPromises array = array.filterMap id) ∧
      (∀ values : List Int, processAllPromises (values.map some) = values) ∧
      processAllPromises [some 1, none] = [1] := by
  have hall : ∀ array : List (Option Int),
      processAllPromises array = array.filterMap id := by
    intro array
    unfold processAllPromises
    rw [processAllPromises_go array []]
    rfl
  refine ⟨hall, ?_, rfl⟩
  intro values
  rw [hall]
  simp

/-- `chainPromises`'s inner `promiseLoop` from the source, with the mutable
`array` passed explicitly: each step is `array.shift()` (remove the head);
a fulfilled head computes `acc ? action(acc, value) : value` — JavaScript
truthiness: a `null` (`none`) or zero accumulator re-seeds with the bare
value — then recurses while the array is non-empty, else resolves; a
rejected head is caught and the loop recurses (or resolves) with the
accumulator unchanged.  The result pairs the resolved value (`none` models
resolving with `null`, possible when every input rejects) with the final
state of the caller's array.  The `[]` case is unreachable from
`chainPromises` on a non-empty array; on an empty array the source dies
synchronously calling `.then` on `undefined`. -/
def promiseLoop (action : Int → Int → Int) :
    Option Int → List (Except String Int) → Option Int × List (Except String Int)
  | acc, [] => (acc, [])
  | acc, x :: rest =>
    match x with
    | .ok value =>
      let newAcc : Int :=
        match acc with
        | some a => if a != 0 then action a value else value
        | none => value
      if rest.isEmpty then (some newAcc, rest) else promiseLoop action (some newAcc) rest
    | .error _ =>
      if rest.isEmpty then (acc, rest) else promiseLoop action (acc) rest

/-- `chainPromises` from the source: run `promiseLoop` with a `null`
accumulator on the caller's array. -/
def chainPromises (array : List (Except String Int)) (action : Int → Int → Int) :
    Option Int × List (Except String Int) :=
  promiseLoop action none array

/-- One step of the fold `chainPromises` actually computes: a rejection
leaves the accumulator unchanged; a fulfilled value is combined by `action`
only when the accumulator is truthy (non-null and non-zero), and otherwise
re-seeds the accumulator. -/
def chainStep (action : Int → Int → Int) (acc : Option Int)
    (x : Except String Int) : Option Int :=
  match x with
  | .error _ => acc
  | .ok value =>
    some (match acc with
      | some a => if a != 0 then action a value else value
      | none => value)

/-- One step of the fold the claim describes: a rejection leaves the
accumulator unchanged; a fulfilled value seeds the accumulator on the first
success and is combined by `action` on every later success. -/
def claimStep (action : Int → Int → Int) (acc : Option Int)
    (x : Except String Int) : Option Int :=
  match x with
  | .error _ => acc
  | .ok value =>
    match acc with
    | some a => some (action a value)
    | none => some value

theorem promiseLoop_foldl (action : Int → Int → Int) :
    ∀ (array : List (Except String Int)) (acc : Option Int), array ≠ [] →
      (promiseLoop action acc array).1 = array.foldl (chainStep action) acc := by
  intro array
  induction array with
  | nil => intro acc h; exact absurd rfl h
  | cons x rest ih =>
    intro acc _
    cases rest with
    | nil =>
      cases x with
      | ok value => simp [promiseLoop, chainStep]
      | error e => simp [promiseLoop, chainStep]
    | cons y rest2 =>
      cases x with
      | ok value =>
        rw [List.foldl_cons]
        exact ih (chainStep action acc (.ok value)) (List.cons_ne_nil y rest2)
      | error e =>
        rw [List.foldl_cons]
        exact ih (chainStep action acc (.error e)) (List.cons_ne_nil y rest2)

/-- **C7 counterexample.** The claim's accumulator semantics (seed on first
success, combine by `action` on every later success) predicts that chaining
fulfilled `1, 0, 5` with multiplication resolves to `(1*0)*5 = 0`; the code
resolves to `5`, because the zero accumulator is falsy and the test
`acc ? action(acc, value) : value` re-seeds instead of combining. -/
theorem chainPromises_claim_counterexample :
    (chainPromises [.ok 1, .ok 0, .ok 5] (fun a b => a * b)).1 = some 5 ∧
      List.foldl (claimStep (fun a b => a * b)) none [.ok 1, .ok 0, .ok 5]
        = some 0 ∧
      (some 5 : Option Int) ≠ some 0 :=
  ⟨by decide, by decide, by decide⟩

/-- **C7 (amended).** On a non-empty input, `chainPromises` processes the
settled promises strictly in order while folding an accumulator: a rejected
element is skipped with the accumulator unchanged; a fulfilled value is
combined with the accumulator by `action` when the accumulator is truthy
(non-null and non-zero), and re-seeds the accumulator when the accumulator
is `null` (no prior success) or zero (falsy); the final accumulator is the
resolved value — over fulfilled `1, 2, 3` with addition, `6`. -/
theorem chainPromises_foldl_amended (array : List (Except String Int))
    (action : Int → Int → Int) (h : array ≠ []) :
    (chainPromises array action).1 = array.foldl (chainStep action) none :=
  promiseLoop_foldl action array none h

/-- **C7 amended witness.** Fulfilled `1, 2, 3` with addition resolves
to `6`. -/
theorem chainPromises_foldl_amended_witness :
    ([(.ok 1 : Except String Int), .ok 2, .ok 3] ≠ []) ∧
      (chainPromises [.ok 1, .ok 2, .ok 3] (fun a b => a + b)).1 = some 6 := by
  refine ⟨List.cons_ne_nil _ _, ?_⟩
  rw [chainPromises_foldl_amended [.ok 1, .ok 2, .ok 3] (fun a b => a + b)
    (List.cons_ne_nil _ _)]
  decide

theorem promiseLoop_empties (action : Int → Int → Int) :
    ∀ (array : List (Except String Int)) (acc : Option Int), array ≠ [] →
      (promiseLoop action acc array).2 = [] := by
  intro array
  induction array with
  | nil => intro acc h; exact absurd rfl h
  | cons x rest ih =>
    intro acc _
    cases rest with
    | nil =>
      cases x with
      | ok value => simp [promiseLoop]
      | error e => simp [promiseLoop]
    | cons y rest2 =>
      cases x with
      | ok value =>
        exact ih (chainStep action acc (.ok value)) (List.cons_ne_nil y rest2)
      | error e =>
        exact ih acc (List.cons_ne_nil y rest2)

/-- **C10.** `chainPromises` consumes its array destructively: every step
shifts off the head, and the loop resolves only once the array is empty, so
for every non-empty input the caller's array has been emptied in place by
the time the returned promise settles. -/
theorem chainPromises_empties_array (array : List (Except String Int))
    (action : Int → Int → Int) (h : array ≠ []) :
    (chainPromises array action).2 = [] :=
  promiseLoop_empties action array none h

/-- **C10 witness.** A three-element array (one rejection included) is empty
once the chain resolves. -/
theorem chainPromises_empties_array_witness :
    ([(.ok 1 : Except String Int), .error "boom", .ok 3] ≠ []) ∧
      (chainPromises [(.ok 1 : Except String Int), .error "boom", .ok 3]
          (fun a b => a + b)).2 = [] :=
  ⟨List.cons_ne_nil _ _,
    chainPromises_empties_array [(.ok 1 : Except String Int), .error "boom", .ok 3]
      (fun a b => a + b) (List.cons_ne_nil _ _)⟩

/-! ## JSON serialization (`src/06-objects-tasks.js`, `getJSON` / `fromJSON`)

`getJSON` is `JSON.stringify` and `fromJSON` is `JSON.parse` followed by
`Object.setPrototypeOf`.  The JSON value domain is modelled by the `Json`
inductive (numbers restricted to integers — the serializable values these
exercises handle), a JavaScript plain data object by a `Json.obj` of its own
enumerable properties in insertion order, and a prototype pointer by pairing
the parsed value with the supplied prototype.  `JSON.stringify` and
`JSON.parse` are modelled by an executable serializer and parser over this
domain; the serializer writes control characters as `\u00XX` escapes (the
built-in prefers the short escapes `\b`, `\t`, `\n`, `\f`, `\r` for five of
them — both are valid JSON spellings of the same string, and the parser
model accepts both). -/

/-- A JSON value: the serializable plain-data domain of `getJSON`. -/
inductive Json where
  | null
  | bool (b : Bool)
  | num (n : Int)
  | str (s : String)
  | arr (elems : List Json)
  | obj (fields : List (String × Json))

/-- The decimal digit character of `n < 10`. -/
def digitChar (n : Nat) : Char := Char.ofNat (48 + n)

/-- Decimal digits of a natural number, most significant first. -/
def printNat (n : Nat) : List Char :=
  if _h : n < 10 then [digitChar n]
  else printNat (n / 10) ++ [digitChar (n % 10)]
decreasing_by exact Nat.div_lt_self (by omega) (by omega)

/-- Decimal rendering of an integer, `-` prefix when negative (the JSON
number rendering of an integer). -/
def printInt (n : Int) : List Char :=
  if n < 0 then '-' :: printNat n.natAbs else printNat n.toNat

/-- Lower-case hexadecimal digit character of `n < 16`. -/
def hexDigitChar (n : Nat) : Char :=
  if n < 10 then Char.ofNat (48 + n) else Char.ofNat (87 + n)

/-- JSON string escaping of one character: `"` and `\` get a backslash,
control characters (code < 32) are written `\u00XX`, everything else is
literal. -/
def escapeChar (c : Char) : List Char :=
  if c = '"' then ['\\', '"']
  else if c = '\\' then ['\\', '\\']
  else if c.toNat < 32 then
    ['\\', 'u', '0', '0', hexDigitChar (c.toNat / 16), hexDigitChar (c.toNat % 16)]
  else [c]

/-- JSON string escaping of a character sequence. -/
def escapeList : List Char → List Char
  | [] => []
  | c :: cs => escapeChar c ++ escapeList cs

/-- A JSON string literal: quote, escaped content, quote. -/
def printStr (s : String) : List Char :=
  '"' :: escapeList s.data ++ ['"']

mutual

/-- The `JSON.stringify` rendering of a value (no whitespace, as the
built-in emits with no space argument). -/
def printJson : Json → List Char
  | .null => "null".data
  | .bool true => "true".data
  | .bool false => "false".data
  | .num n => printInt n
  | .str s => printStr s
  | .arr elems => '[' :: printElems elems ++ [']']
  | .obj fields => '\x7b' :: printFields fields ++ ['\x7d']

/-- Comma-separated renderings of array elements. -/
def printElems : List Json → List Char
  | [] => []
  | [x] => printJson x
  | x :: y :: rest => printJson x ++ ',' :: printElems (y :: rest)

/-- Comma-separated `"key":value` renderings of object fields. -/
def printFields : List (String × Json) → List Char
  | [] => []
  | [(k, v)] => printStr k ++ ':' :: printJson v
  | (k, v) :: y :: rest =>
      printStr k ++ ':' :: printJson v ++ ',' :: printFields (y :: rest)

end

/-- `getJSON` from the source: `JSON.stringify(obj)`. -/
def getJSON (obj : Json) : String := String.mk (printJson obj)

/-- Value of a hexadecimal digit character, if it is one. -/
def hexVal (c : Char) : Option Nat :=
  if 48 ≤ c.toNat ∧ c.toNat ≤ 57 then some (c.toNat - 48)
  else if 97 ≤ c.toNat ∧ c.toNat ≤ 102 then some (c.toNat - 87)
  else if 65 ≤ c.toNat ∧ c.toNat ≤ 70 then some (c.toNat - 55)
  else none

/-- Parse the body of a JSON string literal (after the opening quote) up to
and over the closing quote, undoing the escapes; returns the decoded
characters and the remaining input. -/
def parseStringBody : List Char → Option (List Char × List Char)
  | [] => none
  | c :: cs =>
    if c = '"' then some ([], cs)
    else if c = '\\' then
      match cs with
      | [] => none
      | e :: cs2 =>
        if e = '"' then (parseStringBody cs2).map (fun r => ('"' :: r.1, r.2))
        else if e = '\\' then (parseStringBody cs2).map (fun r => ('\\' :: r.1, r.2))
        else if e = '/' then (parseStringBody cs2).map (fun r => ('/' :: r.1, r.2))
        else if e = 'b' then (parseStringBody cs2).map (fun r => ('\x08' :: r.1, r.2))
        else if e = 'f' then (parseStringBody cs2).map (fun r => ('\x0c' :: r.1, r.2))
        else if e = 'n' then (parseStringBody cs2).map (fun r => ('\n' :: r.1, r.2))
        else if e = 'r' then (parseStringBody cs2).map (fun r => ('\x0d' :: r.1, r.2))
        else if e = 't' then (parseStringBody cs2).map (fun r => ('\t' :: r.1, r.2))
        else if e = 'u' then
          match cs2 with
          | h1 :: h2 :: h3 :: h4 :: cs3 =>
            match hexVal h1, hexVal h2, hexVal h3, hexVal h4 with
            | some a, some b, some c3, some d =>
                (parseStringBody cs3).map
                  (fun r => (Char.ofNat (((a * 16 + b) * 16 + c3) * 16 + d) :: r.1, r.2))
            | _, _, _, _ => none
          | _ => none
        else none
    else (parseStringBody cs).map (fun r => (c :: r.1, r.2))

/-- Greedily accumulate decimal digits (`acc` the value so far); stops at
the first non-digit. -/
def parseDigitsGo (acc : Nat) : List Char → Nat × List Char
  | [] => (acc, [])
  | c :: cs =>
    if c.isDigit then parseDigitsGo (acc * 10 + (c.toNat - 48)) cs else (acc, c :: cs)

/-- Parse a non-empty run of decimal digits. -/
def parseNat : List Char → Option (Nat × List Char)
  | [] => none
  | c :: cs => if c.isDigit then some (parseDigitsGo 0 (c :: cs)) else none

mutual

/-- Parse one JSON value (fuelled recursion; the fuel is an upper bound on
the recursion depth, spent on every nested call). -/
def parseValue : Nat → List Char → Option (Json × List Char)
  | 0, _ => none
  | fuel + 1, cs =>
    match cs with
    | [] => none
    | c :: cs1 =>
      if c = 'n' then
        match cs1 with
        | 'u' :: 'l' :: 'l' :: rest => some (.null, rest)
        | _ => none
      else if c = 't' then
        match cs1 with
        | 'r' :: 'u' :: 'e' :: rest => some (.bool true, rest)
        | _ => none
      else if c = 'f' then
        match cs1 with
        | 'a' :: 'l' :: 's' :: 'e' :: rest => some (.bool false, rest)
        | _ => none
      else if c = '"' then
        (parseStringBody cs1).map (fun r => (.str (String.mk r.1), r.2))
      else if c = '[' then (parseElems fuel cs1).map (fun r => (.arr r.1, r.2))
      else if c = '\x7b' then (parseFields fuel cs1).map (fun r => (.obj r.1, r.2))
      else if c = '-' then
        (parseNat cs1).map (fun r => (.num (-(r.1 : Int)), r.2))
      else if c.isDigit then
        (parseNat (c :: cs1)).map (fun r => (.num (r.1 : Int), r.2))
      else none

/-- Parse the elements of a JSON array (after the opening bracket) up to
and over the closing bracket. -/
def parseElems : Nat → List Char → Option (List Json × List Char)
  | 0, _ => none
  | fuel + 1, cs =>
    match cs with
    | [] => none
    | c :: cs1 =>
      if c = ']' then some ([], cs1)
      else
        match parseValue fuel (c :: cs1) with
        | none => none
        | some (v, r) =>
          match r with
          | ',' :: r2 =>
            match parseElems fuel r2 with
            | some (vs, r3) => if vs.isEmpty then none else some (v :: vs, r3)
            | none => none
          | ']' :: r2 => some ([v], r2)
          | _ => none

/-- Parse the fields of a JSON object (after the opening brace) up to and
over the closing brace. -/
def parseFields : Nat → List Char → Option (List (String × Json) × List Char)
  | 0, _ => none
  | fuel + 1, cs =>
    match cs with
    | [] => none
    | c :: cs1 =>
      if c = '\x7d' then some ([], cs1)
      else if c = '"' then
        match parseStringBody cs1 with
        | none => none
        | some (k, r) =>
          match r with
          | ':' :: r2 =>
            match parseValue fuel r2 with
            | none => none
            | some (v, r3) =>
              match r3 with
              | ',' :: r4 =>
                match parseFields fuel r4 with
                | some (fs, r5) =>
                    if fs.isEmpty then none else some ((String.mk k, v) :: fs, r5)
                | none => none
              | '\x7d' :: r4 => some ([(String.mk k, v)], r4)
              | _ => none
          | _ => none
      else none

end

/-- `JSON.parse` on whole input: parse one value (with ample fuel) and
require the input to be exhausted. -/
def jsonParse (json : String) : Option Json :=
  match parseValue (json.data.length + 1) json.data with
  | some (v, []) => some v
  | _ => none

/-- `fromJSON` from the source: `JSON.parse(json)` followed by
`Object.setPrototypeOf(obj, proto)` — the parsed value paired with the
prototype it now carries. -/
def fromJSON {P : Type} (proto : P) (json : String) : Option (Json × P) :=
  (jsonParse json).map (fun obj => (obj, proto))

/-- The head of the input, if any, is not a decimal digit (controls where a
greedy digit run may stop). -/
def headNotDigit (cs : List Char) : Bool :=
  match cs with
  | [] => true
  | c :: _ => !c.isDigit

theorem string_mk_data (s : String) : String.mk s.data = s := by
  cases s with
  | mk d => rfl

theorem digitChar_isDigit : ∀ n, n < 10 → (digitChar n).isDigit = true := by decide

theorem digitChar_toNat : ∀ n, n < 10 → (digitChar n).toNat = 48 + n := by decide

theorem isDigit_ne (c : Char) (hc : c.isDigit = true) (d : Char)
    (hd : d.isDigit = false) : c ≠ d := by
  intro h
  rw [h, hd] at hc
  exact absurd hc (by decide)

theorem printNat_shape (n : Nat) :
    ∃ c cs, printNat n = c :: cs ∧ c.isDigit = true := by
  induction n using Nat.strong_induction_on with
  | _ n ih =>
    rw [printNat]
    by_cases h : n < 10
    · rw [dif_pos h]
      exact ⟨digitChar n, [], rfl, digitChar_isDigit n h⟩
    · rw [dif_neg h]
      obtain ⟨c, cs, hpr, hc⟩ := ih (n / 10) (Nat.div_lt_self (by omega) (by omega))
      exact ⟨c, cs ++ [digitChar (n % 10)], by rw [hpr]; rfl, hc⟩

theorem parseDigitsGo_printNat (n : Nat) : ∀ (acc : Nat) (rest : List Char),
    parseDigitsGo acc (printNat n ++ rest)
      = parseDigitsGo (acc * 10 ^ (printNat n).length + n) rest := by
  induction n using Nat.strong_induction_on with
  | _ n ih =>
    intro acc rest
    by_cases h : n < 10
    · rw [printNat, dif_pos h]
      have harith : acc * 10 + ((digitChar n).toNat - 48)
          = acc * 10 ^ ([digitChar n].length) + n := by
        rw [digitChar_toNat n h]
        simp
      show parseDigitsGo acc (digitChar n :: rest) = _
      rw [parseDigitsGo, if_pos (digitChar_isDigit n h), harith]
    · rw [printNat, dif_neg h]
      have hm : n % 10 < 10 := Nat.mod_lt _ (by omega)
      rw [List.append_assoc, List.singleton_append]
      rw [ih (n / 10) (Nat.div_lt_self (by omega) (by omega))]
      rw [parseDigitsGo, if_pos (digitChar_isDigit (n % 10) hm)]
      have harith : (acc * 10 ^ (printNat (n / 10)).length + n / 10) * 10
            + ((digitChar (n % 10)).toNat - 48)
          = acc * 10 ^ ((printNat (n / 10) ++ [digitChar (n % 10)]).length) + n := by
        rw [digitChar_toNat (n % 10) hm]
        have h48 : 48 + n % 10 - 48 = n % 10 := by omega
        rw [h48, List.length_append, List.length_singleton]
        calc (acc * 10 ^ (printNat (n / 10)).length + n / 10) * 10 + n % 10
            = acc * 10 ^ (printNat (n / 10)).length * 10 + (10 * (n / 10) + n % 10) := by
              ring
          _ = acc * (10 ^ (printNat (n / 10)).length * 10) + n := by
              rw [Nat.div_add_mod, mul_assoc]
          _ = acc * 10 ^ ((printNat (n / 10)).length + 1) + n := by
              rw [pow_succ]
      rw [harith]

theorem parseDigitsGo_stop (a : Nat) (rest : List Char)
    (hr : headNotDigit rest = true) : parseDigitsGo a rest = (a, rest) := by
  cases rest with
  | nil => rfl
  | cons c cs =>
    have hc : c.isDigit = false := by
      have : (!c.isDigit) = true := hr
      simp at this
      exact this
    rw [parseDigitsGo, if_neg (by rw [hc]; exact Bool.false_ne_true)]

theorem parseNat_printNat (n : Nat) (rest : List Char)
    (hr : headNotDigit rest = true) :
    parseNat (printNat n ++ rest) = some (n, rest) := by
  obtain ⟨c, cs, hpr, hc⟩ := printNat_shape n
  rw [hpr, List.cons_append, parseNat, if_pos hc, ← List.cons_append, ← hpr]
  rw [parseDigitsGo_printNat n 0 rest, parseDigitsGo_stop _ _ hr]
  simp

theorem hexVal_hexDigitChar : ∀ n, n < 16 → hexVal (hexDigitChar n) = some n := by
  decide

theorem parseStringBody_escape (d : List Char) : ∀ rest : List Char,
    parseStringBody (escapeList d ++ '"' :: rest) = some (d, rest) := by
  induction d with
  | nil =>
    intro rest
    have h0 : escapeList [] ++ '"' :: rest = '"' :: rest := by simp [escapeList]
    rw [h0, parseStringBody.eq_def]
    simp
  | cons c cs ih =>
    intro rest
    have hshape : escapeList (c :: cs) ++ '"' :: rest
        = escapeChar c ++ (escapeList cs ++ '"' :: rest) := by
      show (escapeChar c ++ escapeList cs) ++ '"' :: rest = _
      rw [List.append_assoc]
    rw [hshape]
    by_cases hq : c = '"'
    · subst hq
      have he : escapeChar '"' = ['\\', '"'] := rfl
      rw [he]
      show parseStringBody ('\\' :: '"' :: (escapeList cs ++ '"' :: rest)) = _
      rw [parseStringBody.eq_def]
      simp +decide [ih rest]
    · by_cases hb : c = '\\'
      · subst hb
        have he : escapeChar '\\' = ['\\', '\\'] := rfl
        rw [he]
        show parseStringBody ('\\' :: '\\' :: (escapeList cs ++ '"' :: rest)) = _
        rw [parseStringBody.eq_def]
        simp +decide [ih rest]
      · by_cases hctl : c.toNat < 32
        · have he : escapeChar c = ['\\', 'u', '0', '0',
              hexDigitChar (c.toNat / 16), hexDigitChar (c.toNat % 16)] := by
            rw [escapeChar, if_neg hq, if_neg hb, if_pos hctl]
          rw [he]
          have hv0 : hexVal '0' = some 0 := by decide
          have hv1 : hexVal (hexDigitChar (c.toNat / 16)) = some (c.toNat / 16) :=
            hexVal_hexDigitChar _ (by omega)
          have hv2 : hexVal (hexDigitChar (c.toNat % 16)) = some (c.toNat % 16) :=
            hexVal_hexDigitChar _ (by omega)
          have hchar : Char.ofNat (c.toNat / 16 * 16 + c.toNat % 16) = c := by
            have harith : c.toNat / 16 * 16 + c.toNat % 16 = c.toNat := by omega
            rw [harith, Char.ofNat_toNat]
          show parseStringBody ('\\' :: 'u' :: '0' :: '0'
              :: hexDigitChar (c.toNat / 16) :: hexDigitChar (c.toNat % 16)
              :: (escapeList cs ++ '"' :: rest)) = _
          rw [parseStringBody.eq_def]
          simp +decide [hv0, hv1, hv2, ih rest, hchar]
        · have he : escapeChar c = [c] := by
            rw [escapeChar, if_neg hq, if_neg hb, if_neg hctl]
          rw [he]
          show parseStringBody (c :: (escapeList cs ++ '"' :: rest)) = _
          rw [parseStringBody.eq_def]
          simp [hq, hb, ih rest]

theorem printInt_cons (n : Int) :
    ∃ c cs, printInt n = c :: cs ∧ (c.isDigit = true ∨ c = '-') := by
  by_cases hn : n < 0
  · exact ⟨'-', printNat n.natAbs, by rw [printInt, if_pos hn], Or.inr rfl⟩
  · obtain ⟨c, cs, hpr, hc⟩ := printNat_shape n.toNat
    exact ⟨c, cs, by rw [printInt, if_neg hn, hpr], Or.inl hc⟩

theorem printJson_cons (v : Json) :
    ∃ c cs, printJson v = c :: cs ∧ c ≠ ']' ∧ c ≠ '\x7d' := by
  cases v with
  | null => exact ⟨'n', ['u', 'l', 'l'], rfl, by decide, by decide⟩
  | bool b =>
    cases b with
    | true => exact ⟨'t', ['r', 'u', 'e'], rfl, by decide, by decide⟩
    | false => exact ⟨'f', ['a', 'l', 's', 'e'], rfl, by decide, by decide⟩
  | num n =>
    obtain ⟨c, cs, hpr, hc⟩ := printInt_cons n
    refine ⟨c, cs, by simp [printJson, hpr], ?_, ?_⟩
    · rcases hc with hd | hm
      · exact isDigit_ne c hd ']' (by decide)
      · rw [hm]; decide
    · rcases hc with hd | hm
      · exact isDigit_ne c hd '\x7d' (by decide)
      · rw [hm]; decide
  | str s =>
    exact ⟨'"', escapeList s.data ++ ['"'], by simp [printJson, printStr],
      by decide, by decide⟩
  | arr elems =>
    exact ⟨'[', printElems elems ++ [']'], by simp [printJson], by decide, by decide⟩
  | obj fields =>
    exact ⟨'\x7b', printFields fields ++ ['\x7d'], by simp [printJson],
      by decide, by decide⟩

set_option maxHeartbeats 1000000 in
theorem parseValue_digit (g : Nat) (c : Char) (cs1 : List Char)
    (hc : c.isDigit = true) :
    parseValue (g + 1) (c :: cs1)
      = (parseNat (c :: cs1)).map (fun r => (Json.num (r.1 : Int), r.2)) := by
  have h1 : c ≠ 'n' := isDigit_ne c hc 'n' (by decide)
  have h2 : c ≠ 't' := isDigit_ne c hc 't' (by decide)
  have h3 : c ≠ 'f' := isDigit_ne c hc 'f' (by decide)
  have h4 : c ≠ '"' := isDigit_ne c hc '"' (by decide)
  have h5 : c ≠ '[' := isDigit_ne c hc '[' (by decide)
  have h6 : c ≠ '\x7b' := isDigit_ne c hc '\x7b' (by decide)
  have h7 : c ≠ '-' := isDigit_ne c hc '-' (by decide)
  have step : parseValue (g + 1) (c :: cs1)
      = (if c = 'n' then
          match cs1 with
          | 'u' :: 'l' :: 'l' :: rest => some (Json.null, rest)
          | _ => none
        else if c = 't' then
          match cs1 with
          | 'r' :: 'u' :: 'e' :: rest => some (Json.bool true, rest)
          | _ => none
        else if c = 'f' then
          match cs1 with
          | 'a' :: 'l' :: 's' :: 'e' :: rest => some (Json.bool false, rest)
          | _ => none
        else if c = '"' then
          (parseStringBody cs1).map (fun r => (Json.str (String.mk r.1), r.2))
        else if c = '[' then (parseElems g cs1).map (fun r => (Json.arr r.1, r.2))
        else if c = '\x7b' then (parseFields g cs1).map (fun r => (Json.obj r.1, r.2))
        else if c = '-' then
          (parseNat cs1).map (fun r => (Json.num (-(r.1 : Int)), r.2))
        else if c.isDigit then
          (parseNat (c :: cs1)).map (fun r => (Json.num (r.1 : Int), r.2))
        else none) := rfl
  rw [step]
  simp [h1, h2, h3, h4, h5, h6, h7, hc]

mutual

/-- Parser fuel sufficient for one printed value. -/
def needJ : Json → Nat
  | .null => 1
  | .bool _ => 1
  | .num _ => 1
  | .str _ => 1
  | .arr xs => 1 + needL xs
  | .obj fs => 1 + needF fs

/-- Parser fuel sufficient for a printed element list. -/
def needL : List Json → Nat
  | [] => 1
  | x :: xs => 1 + max (needJ x) (needL xs)

/-- Parser fuel sufficient for a printed field list. -/
def needF : List (String × Json) → Nat
  | [] => 1
  | f :: fs => 1 + max (needJ f.2) (needF fs)

end

theorem parseElems_step (g : Nat) (c : Char) (cs1 : List Char) (hc : c ≠ ']') :
    parseElems (g + 1) (c :: cs1)
      = match parseValue g (c :: cs1) with
        | none => none
        | some (v, r) =>
          match r with
          | ',' :: r2 =>
            match parseElems g r2 with
            | some (vs, r3) => if vs.isEmpty then none else some (v :: vs, r3)
            | none => none
          | ']' :: r2 => some ([v], r2)
          | _ => none := by
  have step : parseElems (g + 1) (c :: cs1)
      = (if c = ']' then some ([], cs1)
        else
          match parseValue g (c :: cs1) with
          | none => none
          | some (v, r) =>
            match r with
            | ',' :: r2 =>
              match parseElems g r2 with
              | some (vs, r3) => if vs.isEmpty then none else some (v :: vs, r3)
              | none => none
            | ']' :: r2 => some ([v], r2)
            | _ => none) := rfl
  rw [step, if_neg hc]

theorem parseFields_quote (g : Nat) (cs1 : List Char) :
    parseFields (g + 1) ('"' :: cs1)
      = match parseStringBody cs1 with
        | none => none
        | some (k, r) =>
          match r with
          | ':' :: r2 =>
            match parseValue g r2 with
            | none => none
            | some (v, r3) =>
              match r3 with
              | ',' :: r4 =>
                match parseFields g r4 with
                | some (fs, r5) =>
                    if fs.isEmpty then none else some ((String.mk k, v) :: fs, r5)
                | none => none
              | '\x7d' :: r4 => some ([(String.mk k, v)], r4)
              | _ => none
          | _ => none := rfl

mutual

/-- Parsing the serialized form of a value, followed by any non-digit-headed
remainder, returns exactly that value and the remainder (with enough fuel). -/
theorem parse_print_val (v : Json) : ∀ (fuel : Nat) (rest : List Char),
    needJ v ≤ fuel → headNotDigit rest = true →
    parseValue fuel (printJson v ++ rest) = some (v, rest) := by
  intro fuel rest hf hr
  cases v with
  | null =>
    cases fuel with
    | zero => simp [needJ] at hf
    | succ g => rfl
  | bool b =>
    cases fuel with
    | zero => simp [needJ] at hf
    | succ g => cases b <;> rfl
  | num n =>
    cases fuel with
    | zero => simp [needJ] at hf
    | succ g =>
      by_cases hn : n < 0
      · have hips : printJson (Json.num n) ++ rest
            = '-' :: (printNat n.natAbs ++ rest) := by
          have h1 : printJson (Json.num n) = printInt n := by simp [printJson]
          rw [h1, printInt, if_pos hn]
          rfl
        rw [hips]
        have hstep : parseValue (g + 1) ('-' :: (printNat n.natAbs ++ rest))
            = (parseNat (printNat n.natAbs ++ rest)).map
                (fun r => (Json.num (-(r.1 : Int)), r.2)) := rfl
        rw [hstep, parseNat_printNat n.natAbs rest hr]
        have hn2 : -((n.natAbs : Nat) : Int) = n := by omega
        show some (Json.num (-((n.natAbs : Nat) : Int)), rest) = some (Json.num n, rest)
        rw [hn2]
      · have hips : printJson (Json.num n) = printNat n.toNat := by
          have h1 : printJson (Json.num n) = printInt n := by simp [printJson]
          rw [h1, printInt, if_neg hn]
        obtain ⟨c, cs, hpr, hc⟩ := printNat_shape n.toNat
        rw [hips, hpr, List.cons_append, parseValue_digit g c (cs ++ rest) hc,
          ← List.cons_append, ← hpr, parseNat_printNat n.toNat rest hr]
        have hn2 : ((n.toNat : Nat) : Int) = n := by omega
        show some (Json.num ((n.toNat : Nat) : Int), rest) = some (Json.num n, rest)
        rw [hn2]
  | str s =>
    cases fuel with
    | zero => simp [needJ] at hf
    | succ g =>
      have hshape : printJson (Json.str s) ++ rest
          = '"' :: (escapeList s.data ++ '"' :: rest) := by
        simp [printJson, printStr]
      rw [hshape]
      have hstep : parseValue (g + 1) ('"' :: (escapeList s.data ++ '"' :: rest))
          = (parseStringBody (escapeList s.data ++ '"' :: rest)).map
              (fun r => (Json.str (String.mk r.1), r.2)) := rfl
      rw [hstep, parseStringBody_escape s.data rest]
      simp [string_mk_data]
  | arr xs =>
    cases fuel with
    | zero => simp [needJ] at hf
    | succ g =>
      have hshape : printJson (Json.arr xs) ++ rest
          = '[' :: (printElems xs ++ ']' :: rest) := by
        simp [printJson]
      rw [hshape]
      have hstep : parseValue (g + 1) ('[' :: (printElems xs ++ ']' :: rest))
          = (parseElems g (printElems xs ++ ']' :: rest)).map
              (fun r => (Json.arr r.1, r.2)) := rfl
      rw [hstep, parse_print_elems xs g rest (by simp only [needJ] at hf; omega)]
      rfl
  | obj fs =>
    cases fuel with
    | zero => simp [needJ] at hf
    | succ g =>
      have hshape : printJson (Json.obj fs) ++ rest
          = '\x7b' :: (printFields fs ++ '\x7d' :: rest) := by
        simp [printJson]
      rw [hshape]
      have hstep : parseValue (g + 1) ('\x7b' :: (printFields fs ++ '\x7d' :: rest))
          = (parseFields g (printFields fs ++ '\x7d' :: rest)).map
              (fun r => (Json.obj r.1, r.2)) := rfl
      rw [hstep, parse_print_fields fs g rest (by simp only [needJ] at hf; omega)]
      rfl

/-- Parsing the serialized form of an element list, followed by the closing
bracket and any remainder, returns exactly those elements. -/
theorem parse_print_elems (xs : List Json) : ∀ (fuel : Nat) (rest0 : List Char),
    needL xs ≤ fuel →
    parseElems fuel (printElems xs ++ ']' :: rest0) = some (xs, rest0) := by
  intro fuel rest0 hf
  match xs with
  | [] =>
    cases fuel with
    | zero => simp [needL] at hf
    | succ g => rfl
  | [x] =>
    cases fuel with
    | zero => simp [needL] at hf
    | succ g =>
      obtain ⟨c, cs, hpr, hc, hcb⟩ := printJson_cons x
      have hfx : needJ x ≤ g := by simp only [needL] at hf; omega
      have hval := parse_print_val x g (']' :: rest0) hfx rfl
      have hPE : printElems [x] = printJson x := by simp [printElems]
      rw [hPE, hpr, List.cons_append,
        parseElems_step g c (cs ++ ']' :: rest0) hc]
      rw [hpr, List.cons_append] at hval
      rw [hval]
      simp
  | x :: y :: ys =>
    cases fuel with
    | zero => simp [needL] at hf
    | succ g =>
      obtain ⟨c, cs, hpr, hc, hcb⟩ := printJson_cons x
      have hfx : needJ x ≤ g := by simp only [needL] at hf; omega
      have hfr : needL (y :: ys) ≤ g := by simp only [needL] at hf ⊢; omega
      have hval := parse_print_val x g
        (',' :: (printElems (y :: ys) ++ ']' :: rest0)) hfx rfl
      have hrec := parse_print_elems (y :: ys) g rest0 hfr
      have hshape : printElems (x :: y :: ys) ++ ']' :: rest0
          = c :: (cs ++ ',' :: (printElems (y :: ys) ++ ']' :: rest0)) := by
        show (printJson x ++ ',' :: printElems (y :: ys)) ++ ']' :: rest0 = _
        rw [hpr]
        simp
      rw [hshape, parseElems_step g c _ hc]
      rw [hpr, List.cons_append] at hval
      rw [hval]
      simp [hrec]

/-- Parsing the serialized form of a field list, followed by the closing
brace and any remainder, returns exactly those fields. -/
theorem parse_print_fields (fs : List (String × Json)) :
    ∀ (fuel : Nat) (rest0 : List Char), needF fs ≤ fuel →
    parseFields fuel (printFields fs ++ '\x7d' :: rest0) = some (fs, rest0) := by
  intro fuel rest0 hf
  match fs with
  | [] =>
    cases fuel with
    | zero => simp [needF] at hf
    | succ g => rfl
  | [(k, v)] =>
    cases fuel with
    | zero => simp [needF] at hf
    | succ g =>
      have hfv : needJ v ≤ g := by simp only [needF] at hf; omega
      have hval := parse_print_val v g ('\x7d' :: rest0) hfv rfl
      have hshape : printFields [(k, v)] ++ '\x7d' :: rest0
          = '"' :: (escapeList k.data
              ++ '"' :: (':' :: (printJson v ++ '\x7d' :: rest0))) := by
        show (printStr k ++ ':' :: printJson v) ++ '\x7d' :: rest0 = _
        simp [printStr]
      rw [hshape, parseFields_quote, parseStringBody_escape k.data _]
      simp [hval, string_mk_data]
  | (k, v) :: y :: fs2 =>
    cases fuel with
    | zero => simp [needF] at hf
    | succ g =>
      have hfv : needJ v ≤ g := by simp only [needF] at hf; omega
      have hfr : needF (y :: fs2) ≤ g := by simp only [needF] at hf ⊢; omega
      have hval := parse_print_val v g
        (',' :: (printFields (y :: fs2) ++ '\x7d' :: rest0)) hfv rfl
      have hrec := parse_print_fields (y :: fs2) g rest0 hfr
      have hshape : printFields ((k, v) :: y :: fs2) ++ '\x7d' :: rest0
          = '"' :: (escapeList k.data ++ '"' :: (':' :: (printJson v
              ++ ',' :: (printFields (y :: fs2) ++ '\x7d' :: rest0)))) := by
        show (printStr k ++ ':' :: printJson v ++ ',' :: printFields (y :: fs2))
            ++ '\x7d' :: rest0 = _
        simp [printStr]
      rw [hshape, parseFields_quote, parseStringBody_escape k.data _]
      simp [hval, hrec, string_mk_data]

end

theorem printJson_length_pos (v : Json) : 1 ≤ (printJson v).length := by
  obtain ⟨c, cs, hpr, _, _⟩ := printJson_cons v
  rw [hpr]
  simp

mutual

theorem needJ_le (v : Json) : needJ v ≤ (printJson v).length := by
  cases v with
  | null =>
    have e1 : needJ Json.null = 1 := rfl
    have e2 : (printJson Json.null).length = 4 := rfl
    omega
  | bool b =>
    cases b with
    | true =>
      have e1 : needJ (Json.bool true) = 1 := rfl
      have e2 : (printJson (Json.bool true)).length = 4 := rfl
      omega
    | false =>
      have e1 : needJ (Json.bool false) = 1 := rfl
      have e2 : (printJson (Json.bool false)).length = 5 := rfl
      omega
  | num n =>
    have e : needJ (Json.num n) = 1 := rfl
    rw [e]
    exact printJson_length_pos (Json.num n)
  | str s =>
    have e : needJ (Json.str s) = 1 := rfl
    rw [e]
    exact printJson_length_pos (Json.str s)
  | arr xs =>
    have e : needJ (Json.arr xs) = 1 + needL xs := rfl
    have e2 : printJson (Json.arr xs) = '[' :: printElems xs ++ [']'] := rfl
    have h := needL_le xs
    rw [e, e2]
    simp only [List.length_cons, List.length_append, List.length_singleton]
    omega
  | obj fs =>
    have e : needJ (Json.obj fs) = 1 + needF fs := rfl
    have e2 : printJson (Json.obj fs) = '\x7b' :: printFields fs ++ ['\x7d'] := rfl
    have h := needF_le fs
    rw [e, e2]
    simp only [List.length_cons, List.length_append, List.length_singleton]
    omega

theorem needL_le (xs : List Json) : needL xs ≤ (printElems xs).length + 1 := by
  match xs with
  | [] => simp [needL, printElems]
  | [x] =>
    have e : needL [x] = 1 + max (needJ x) (needL []) := rfl
    have e0 : needL ([] : List Json) = 1 := rfl
    have eP : printElems [x] = printJson x := rfl
    have h1 := needJ_le x
    have h2 := printJson_length_pos x
    rw [e, e0, eP]
    omega
  | x :: y :: ys =>
    have e : needL (x :: y :: ys) = 1 + max (needJ x) (needL (y :: ys)) := rfl
    have eP : printElems (x :: y :: ys)
        = printJson x ++ ',' :: printElems (y :: ys) := rfl
    have h1 := needJ_le x
    have h2 := printJson_length_pos x
    have h3 := needL_le (y :: ys)
    rw [e, eP]
    simp only [List.length_append, List.length_cons]
    omega

theorem needF_le (fs : List (String × Json)) :
    needF fs ≤ (printFields fs).length + 1 := by
  match fs with
  | [] => simp [needF, printFields]
  | [(k, v)] =>
    have e : needF [(k, v)] = 1 + max (needJ v) (needF []) := rfl
    have e0 : needF ([] : List (String × Json)) = 1 := rfl
    have eP : printFields [(k, v)] = printStr k ++ ':' :: printJson v := rfl
    have h1 := needJ_le v
    rw [e, e0, eP]
    simp only [List.length_append, List.length_cons]
    omega
  | (k, v) :: y :: fs2 =>
    have e : needF ((k, v) :: y :: fs2)
        = 1 + max (needJ v) (needF (y :: fs2)) := rfl
    have eP : printFields ((k, v) :: y :: fs2)
        = printStr k ++ ':' :: printJson v ++ ',' :: printFields (y :: fs2) := rfl
    have h1 := needJ_le v
    have h3 := needF_le (y :: fs2)
    rw [e, eP]
    simp only [List.length_append, List.length_cons]
    omega

end

/-- Round trip at the whole-string level: parsing the serialization of any
JSON value returns exactly that value. -/
theorem jsonParse_getJSON (v : Json) : jsonParse (getJSON v) = some v := by
  have hfuel : needJ v ≤ (printJson v).length + 1 :=
    le_trans (needJ_le v) (Nat.le_succ _)
  have hp := parse_print_val v ((printJson v).length + 1) [] hfuel rfl
  rw [List.append_nil] at hp
  unfold jsonParse getJSON
  rw [show (String.mk (printJson v)).data = printJson v from rfl, hp]

/-- Round trip with the prototype attached, for any serializable value. -/
theorem getJSON_fromJSON_inv {P : Type} (proto : P) (v : Json) :
    fromJSON proto (getJSON v) = some (v, proto) := by
  unfold fromJSON
  rw [jsonParse_getJSON]
  rfl

/-- **C9.** For every JSON-serializable plain data object — its own
enumerable properties `fields`, names and values in insertion order — and
every prototype object `proto`, `fromJSON(proto, getJSON(obj))` returns an
object with exactly the same own enumerable properties and with prototype
`proto`: parse-from-text-with-prototype is a left inverse of
serialize-to-text on plain data, up to prototype replacement. -/
theorem fromJSON_getJSON_roundtrip {P : Type} (proto : P)
    (fields : List (String × Json)) :
    fromJSON proto (getJSON (Json.obj fields)) = some (Json.obj fields, proto) :=
  getJSON_fromJSON_inv proto (Json.obj fields)
